import Mathlib

/-!
Verification development for the Can_Reader_Vec repository.

Shallow embedding of the decode/cache engine (`src/data/signal_processor.py`,
`src/data/blf_reader.py`, `src/data/dbc_parser.py`), the alignment/export
pipeline (`src/utils/csv_exporter.py`, `src/utils/partial_exporter.py`) and
the cursor statistics (`src/gui/statistics_widget.py`).

Conventions of the embedding:
* Python floats are modelled as `ℚ` (all algorithms in scope are exact
  arithmetic; no rounding-dependent branch exists in the embedded code).
* Python dicts are modelled as association lists in insertion order;
  assignment `d[k] = v` is `dictInsert` (overwrite in place or append).
* A Python function that prints diagnostics and returns a value is modelled
  as a structure holding the returned value and the list of printed lines.
* `try/except` around an external call is modelled by giving the external
  call an `Option` result (`none` = the call raised).
-/

namespace CanReaderVec

/-- Python dict assignment `d[k] = v`: overwrite the entry in place if the
key exists, otherwise append at the end (insertion order preserved). -/
def dictInsert (k : String) (v : α) (d : List (String × α)) : List (String × α) :=
  if d.any (fun p => p.1 = k) then
    d.map (fun p => if p.1 = k then (k, v) else p)
  else
    d ++ [(k, v)]

/-- Python dict read `d[k]` / `d.get(k)`: the value stored at the first
(and only) entry with key `k`, `none` when absent. -/
def dictLookup (k : String) : List (String × α) → Option α
  | [] => none
  | p :: rest => if p.1 = k then some p.2 else dictLookup k rest

/-- One raw CAN frame as stored by `BLFReader.load_file`
(`src/data/blf_reader.py` lines 36-42): timestamp, arbitration id, payload. -/
structure Frame where
  timestamp : ℚ
  arbitration_id : ℕ
  data : List ℕ
deriving DecidableEq

/-- One message definition of the DBC database, as used by
`SignalProcessor.process_signal`: name, frame id, and the cantools decode
function for this message.  `decode payload = none` models cantools raising
on a malformed payload; `some d` is the decoded signal dictionary. -/
structure DbcMessage where
  name : String
  frame_id : ℕ
  decode : List ℕ → Option (List (String × ℚ))

/-- `DBCParser` with a loaded database (`src/data/dbc_parser.py`): the
database is its ordered list of message definitions. -/
structure DBCParser where
  messages : List DbcMessage

/-- `DBCParser.get_message_by_name` (dbc_parser.py lines 84-100):
first message with the given name, `none` if absent. -/
def get_message_by_name (p : DBCParser) (message_name : String) : Option DbcMessage :=
  p.messages.find? (fun m => m.name = message_name)

/-- `DBCParser.get_message_by_id` (dbc_parser.py lines 66-82):
first message with the given frame id, `none` if absent. -/
def get_message_by_id (p : DBCParser) (message_id : ℕ) : Option DbcMessage :=
  p.messages.find? (fun m => m.frame_id = message_id)

/-- `DBCParser.decode_message` (dbc_parser.py lines 102-121): resolve the
message by id, then decode; `none` both when the id is unknown and when the
decode raises (the method catches and returns None). -/
def decode_message (p : DBCParser) (message_id : ℕ) (data : List ℕ) :
    Option (List (String × ℚ)) :=
  match get_message_by_id p message_id with
  | none => none
  | some m => m.decode data

/-- `BLFReader` state (`src/data/blf_reader.py` lines 14-18). -/
structure BLFReader where
  messages : List Frame
  filepath : String
  start_time : ℚ
  end_time : ℚ
deriving DecidableEq

/-- `BLFReader.get_messages_by_id` (blf_reader.py lines 59-69): all loaded
frames with the given arbitration id, in stored order. -/
def get_messages_by_id (r : BLFReader) (arbitration_id : ℕ) : List Frame :=
  r.messages.filter (fun msg => msg.arbitration_id = arbitration_id)

/-- Timestamp normalization loop of `BLFReader.load_file`
(blf_reader.py lines 49-50): subtract the first timestamp from every frame. -/
def normalizeFrames (start : ℚ) (frames : List Frame) : List Frame :=
  frames.map (fun msg => { msg with timestamp := msg.timestamp - start })

/-- `BLFReader.load_file` (blf_reader.py lines 20-57).

The external `can.BLFReader` iteration is modelled by its observable
behaviour: it yields the frame list `yielded` and, when `raises = true`,
raises an exception after yielding them (opening failure = `raises` with
`yielded = []`).  The method first overwrites `self.filepath` and clears
`self.messages`, then appends each yielded frame; the `except` branch
therefore leaves the partially filled list and the new path in place and
keeps the previous `start_time`/`end_time`.  Returns the new state and the
boolean result. -/
def load_file (st : BLFReader) (filepath : String) (yielded : List Frame)
    (raises : Bool) : BLFReader × Bool :=
  if raises then
    ({ st with filepath := filepath, messages := yielded }, false)
  else
    match yielded with
    | [] => ({ st with filepath := filepath, messages := [] }, false)
    | first :: rest =>
      let start := first.timestamp
      let last := (rest.getLastD first).timestamp
      ({ st with
          filepath := filepath
          messages := normalizeFrames start (first :: rest)
          start_time := start
          end_time := last }, true)

/-- `SignalProcessor` state (`src/data/signal_processor.py` line 23): the
cache `processed_signals`, keyed by `"message.signal"`, holding the
(time array, value array) pair. -/
structure SignalProcessor where
  processed_signals : List (String × (List ℚ × List ℚ))
deriving DecidableEq

/-- The decode condition of the loop body in `SignalProcessor.process_signal`
(signal_processor.py lines 53-57): the decode of the frame payload did not
raise, the decoded dict is truthy (non-empty), and the signal is a key of it. -/
def decodeOk (p : DBCParser) (frame_id : ℕ) (signal_name : String)
    (msg : Frame) : Bool :=
  match decode_message p frame_id msg.data with
  | none => false
  | some d => !d.isEmpty && (d.lookup signal_name).isSome

/-- The value appended for a frame passing `decodeOk`:
`decoded[signal_name]` (signal_processor.py line 57). -/
def decodedValue (p : DBCParser) (frame_id : ℕ) (signal_name : String)
    (msg : Frame) : ℚ :=
  match decode_message p frame_id msg.data with
  | none => 0
  | some d => (d.lookup signal_name).getD 0

/-- The decode loop of `SignalProcessor.process_signal`
(signal_processor.py lines 48-60): builds the timestamp list and the value
list, skipping frames whose decode raises or lacks the signal. -/
def decodeLoop (p : DBCParser) (frame_id : ℕ) (signal_name : String) :
    List Frame → List ℚ × List ℚ
  | [] => ([], [])
  | msg :: rest =>
    let tail := decodeLoop p frame_id signal_name rest
    if decodeOk p frame_id signal_name msg then
      (msg.timestamp :: tail.1, decodedValue p frame_id signal_name msg :: tail.2)
    else
      tail

/-- Result of one `process_signal` call: the Python return value (`none`
models `return None`), the lines printed, the cache state after the call,
and how many frames were passed to the decode function during the call. -/
structure ProcessResult where
  ret : Option (List ℚ × List ℚ)
  log : List String
  processed_signals : List (String × (List ℚ × List ℚ))
  decodeCalls : ℕ

/-- `SignalProcessor.process_signal` (signal_processor.py lines 25-77).

Every failure path returns None after printing one diagnostic; the cache is
only written on success (lines 70-75) and is never read by this method.
Each frame of `blf_messages` causes exactly one decode invocation. -/
def process_signal (dbc : DBCParser) (blf : BLFReader) (sp : SignalProcessor)
    (message_name signal_name : String) : ProcessResult :=
  match get_message_by_name dbc message_name with
  | none =>
    ⟨none, ["Message " ++ message_name ++ " not found in DBC"],
      sp.processed_signals, 0⟩
  | some message =>
    let blf_messages := get_messages_by_id blf message.frame_id
    if blf_messages.isEmpty then
      ⟨none, ["No messages with ID " ++ toString message.frame_id ++ " found in BLF"],
        sp.processed_signals, 0⟩
    else
      let tv := decodeLoop dbc message.frame_id signal_name blf_messages
      if tv.1.isEmpty then
        ⟨none, ["No valid data for signal " ++ signal_name ++ " in message " ++ message_name],
          sp.processed_signals, blf_messages.length⟩
      else
        ⟨some tv, [],
          dictInsert (message_name ++ "." ++ signal_name) tv sp.processed_signals,
          blf_messages.length⟩

/-- `SignalProcessor.get_cached_signal` (signal_processor.py lines 107-122). -/
def get_cached_signal (sp : SignalProcessor) (message_name signal_name : String) :
    Option (List ℚ × List ℚ) :=
  dictLookup (message_name ++ "." ++ signal_name) sp.processed_signals

/-! ### Signal-data dictionaries

`CSVExporter.export_signals`, `PartialDataExporter.export_time_range` and
`StatisticsWidget.update_statistics` all consume a dict
`signal_key -> {time, value, unit, message, signal}`.  An entry whose data
is `None` is modelled as `none`; an entry missing the `time` or `value` key
takes the same skip branch as `None` in all three functions and is folded
into `none` here.  The optional `unit`/`message`/`signal` keys are `Option`
fields read with `.get(k, default)`. -/

structure SigData where
  time : List ℚ
  value : List ℚ
  unit : Option String
  message : Option String
  signal : Option String
deriving DecidableEq

/-- Boolean-mask filtering `mask = (time >= t1) & (time <= t2)` applied to
the index-aligned time and value arrays (partial_exporter.py lines 63-66,
csv_exporter.py lines 54-58, statistics_widget.py lines 89-91): keep the
(time, value) pairs whose time lies in the closed range. -/
def maskFilter (t1 t2 : ℚ) (time value : List ℚ) : List ℚ × List ℚ :=
  let kept := (time.zip value).filter (fun p => decide (t1 ≤ p.1 ∧ p.1 ≤ t2))
  (kept.map Prod.fst, kept.map Prod.snd)

/-- The `"<message>.<signal>"` / `"<signal>"` key formatting shared by the
exporters and the statistics widget (e.g. partial_exporter.py lines 75-78). -/
def fullKey (message_name signal_name : String) : String :=
  if message_name ≠ "" then message_name ++ "." ++ signal_name else signal_name

/-! ### PartialDataExporter (src/utils/partial_exporter.py) -/

/-- One record of the `signals` section of the exported JSON document
(partial_exporter.py lines 80-87). -/
structure SignalRecord where
  message : String
  signal : String
  unit : String
  time : List ℚ
  value : List ℚ
  sample_count : ℕ
deriving DecidableEq

/-- The JSON document written by `export_time_range`
(partial_exporter.py lines 44-53): metadata envelope, time range with
duration, and the per-signal records. -/
structure ExportData where
  metadata : List (String × String)
  tr_start : ℚ
  tr_end : ℚ
  tr_duration : ℚ
  signals : List (String × SignalRecord)
deriving DecidableEq

/-- `metadata.update({'export_date': ..., 'app_name': ..., 'app_version': ...})`
(partial_exporter.py lines 38-42): in-place insertion of the three keys into
the caller's dict, overwriting existing values.  `now` stands for
`datetime.now().isoformat()`. -/
def updateMetadata (metadata : List (String × String)) (now : String) :
    List (String × String) :=
  dictInsert "app_version" "1.1.0"
    (dictInsert "app_name" "CAN Data Viewer"
      (dictInsert "export_date" now metadata))

/-- The per-signal loop of `export_time_range`
(partial_exporter.py lines 56-87): skip `None` entries, filter each series
to the closed range, skip series left empty, and assign the record into
`export_data['signals']` under the formatted full key. -/
def exportSignalsLoop (t1 t2 : ℚ) :
    List (String × Option SigData) → List (String × SignalRecord) →
    List (String × SignalRecord)
  | [], acc => acc
  | (_, none) :: rest, acc => exportSignalsLoop t1 t2 rest acc
  | (signal_key, some data) :: rest, acc =>
    let tv := maskFilter t1 t2 data.time data.value
    if tv.1.isEmpty then
      exportSignalsLoop t1 t2 rest acc
    else
      let signal_name := data.signal.getD signal_key
      let message_name := data.message.getD ""
      exportSignalsLoop t1 t2 rest
        (dictInsert (fullKey message_name signal_name)
          ⟨message_name, signal_name, data.unit.getD "", tv.1, tv.2, tv.1.length⟩ acc)

/-- Outcome of one `export_time_range` call: the returned boolean, the
caller's metadata dict after the call (the method mutates the argument
in place), and the file content when the write succeeded. -/
structure ExportOutcome where
  success : Bool
  metadata_arg : List (String × String)
  written : Option ExportData
deriving DecidableEq

/-- `PartialDataExporter.export_time_range` (partial_exporter.py lines 16-97).

`metadata = none` models the caller passing no dict (a fresh empty one is
created); `some m` is the caller-owned dict, whose post-call contents are
reported in `metadata_arg`.  `writeOk = false` models the file write at
lines 90-91 raising, in which case the method returns False from the
`except` branch — the metadata mutation has already happened by then. -/
def export_time_range (signal_data_dict : List (String × Option SigData))
    (time_range : ℚ × ℚ) (metadata : Option (List (String × String)))
    (now : String) (writeOk : Bool) : ExportOutcome :=
  let meta := updateMetadata (metadata.getD []) now
  let export_data : ExportData :=
    ⟨meta, time_range.1, time_range.2, time_range.2 - time_range.1,
      exportSignalsLoop time_range.1 time_range.2 signal_data_dict []⟩
  if writeOk then ⟨true, meta, some export_data⟩
  else ⟨false, meta, none⟩

/-- `PartialDataExporter.load_partial_data` (partial_exporter.py lines 99-124):
parse the JSON document back (`none` = unreadable file) and convert each
signal's time/value lists to arrays — the identity on this model, since the
JSON round trip of the written document reproduces it exactly. -/
def loadPartialData (file : Option ExportData) : Option ExportData :=
  match file with
  | none => none
  | some data =>
    some { data with
            signals := data.signals.map (fun p =>
              (p.1, { p.2 with time := p.2.time, value := p.2.value })) }

/-! ### CSVExporter (src/utils/csv_exporter.py) -/

/-- One surviving entry of `signal_arrays` (csv_exporter.py lines 63-69):
the range-filtered arrays plus the resolved header fields. -/
structure AlignInput where
  time : List ℚ
  value : List ℚ
  unit : String
  message : String
  signal : String
deriving DecidableEq

/-- The collection loop of `export_signals` (csv_exporter.py lines 46-70):
skip `None` entries, apply the optional range filter, and keep only series
with at least one remaining sample, in dict iteration order. -/
def signal_arrays (time_range : Option (ℚ × ℚ)) :
    List (String × Option SigData) → List (String × AlignInput)
  | [] => []
  | (_, none) :: rest => signal_arrays time_range rest
  | (signal_key, some data) :: rest =>
    let tv := match time_range with
      | none => (data.time, data.value)
      | some (t_start, t_end) => maskFilter t_start t_end data.time data.value
    if tv.1.isEmpty then
      signal_arrays time_range rest
    else
      (signal_key,
        ⟨tv.1, tv.2, data.unit.getD "", data.message.getD "",
          data.signal.getD signal_key⟩) :: signal_arrays time_range rest

/-- `all_times` (csv_exporter.py lines 44, 70): the concatenation of every
surviving series' filtered timestamps, in iteration order. -/
def allTimes (arrs : List (String × AlignInput)) : List ℚ :=
  (arrs.map (fun p => p.2.time)).flatten

/-- `unified_time = np.unique(np.sort(np.array(all_times)))`
(csv_exporter.py line 77): the ascending list of the distinct collected
timestamps — one representative per duplicate group, sorted ascending. -/
def unified_time (arrs : List (String × AlignInput)) : List ℚ :=
  ((allTimes arrs).dedup).insertionSort (· ≤ ·)

/-- Interior of `np.interp`: knots `(t0, v0) :: pts` already passed `t0 < x`.
Walks the remaining knots; inside an interval the value is the linear
interpolant, past the last knot it is the last value (right clamp). -/
def interpFrom (t0 v0 : ℚ) : List (ℚ × ℚ) → ℚ → ℚ
  | [], _ => v0
  | (t1, v1) :: rest, x =>
    if x ≤ t1 then v0 + (v1 - v0) * (x - t0) / (t1 - t0)
    else interpFrom t1 v1 rest x

/-- `np.interp(x, xp, fp)` (csv_exporter.py lines 83-87) over the zipped
knot list, for increasing `xp`: clamp to the first value left of the span,
to the last value right of it, and interpolate linearly inside.  `np.interp`
rejects empty `xp`; the pipeline only calls this with a non-empty series,
and the `[]` case returns 0. -/
def interp (pts : List (ℚ × ℚ)) (x : ℚ) : ℚ :=
  match pts with
  | [] => 0
  | (t0, v0) :: rest => if x ≤ t0 then v0 else interpFrom t0 v0 rest x

/-- `interpolated_data` (csv_exporter.py lines 80-93): every surviving
series resampled onto the unified time base by `np.interp`. -/
def interpolated_data (arrs : List (String × AlignInput)) :
    List (String × List ℚ) :=
  arrs.map (fun p => (p.1, (unified_time arrs).map (interp (p.2.time.zip p.2.value))))

/-! ### StatisticsWidget (src/gui/statistics_widget.py) -/

/-- One statistics block (statistics_widget.py lines 96-100, 119-125).
`np.std` with default `ddof = 0` is the square root of the population
variance; the model stores its square `std_sq` (the population variance,
sum of squared deviations divided by the sample count), which determines
the displayed value and is rational. -/
structure SignalStats where
  avg : ℚ
  max_val : ℚ
  min_val : ℚ
  std_sq : ℚ
  samples : ℕ
deriving DecidableEq

/-- `np.mean` of a value list. -/
def listMean (vs : List ℚ) : ℚ := vs.sum / vs.length

/-- `np.max` of a non-empty value list (0 on the empty list, never hit:
the caller skips empty selections). -/
def listMax : List ℚ → ℚ
  | [] => 0
  | v :: rest => rest.foldl max v

/-- `np.min` of a non-empty value list (0 on the empty list, never hit). -/
def listMin : List ℚ → ℚ
  | [] => 0
  | v :: rest => rest.foldl min v

/-- Population variance: `np.std(vs) ** 2`, the mean of squared deviations
(divisor `len vs`, not `len vs - 1`). -/
def popVar (vs : List ℚ) : ℚ :=
  ((vs.map (fun x => (x - listMean vs) ^ 2)).sum) / vs.length

/-- The statistics computed for one selection
(statistics_widget.py lines 96-100, 124). -/
def statsOf (vs : List ℚ) : SignalStats :=
  ⟨listMean vs, listMax vs, listMin vs, popVar vs, vs.length⟩

/-- The per-signal loop of `update_statistics`
(statistics_widget.py lines 82-125): select the raw values whose timestamp
lies in the closed cursor range, skip series with an empty selection, and
report the statistics under the formatted full name. -/
def statsLoop (t1 t2 : ℚ) :
    List (String × Option SigData) → List (String × SignalStats)
  | [] => []
  | (_, none) :: rest => statsLoop t1 t2 rest
  | (signal_key, some data) :: rest =>
    let values_in_range :=
      ((data.time.zip data.value).filter
        (fun p => decide (t1 ≤ p.1 ∧ p.1 ≤ t2))).map Prod.snd
    if values_in_range.isEmpty then
      statsLoop t1 t2 rest
    else
      (fullKey (data.message.getD "") (data.signal.getD signal_key),
        statsOf values_in_range) :: statsLoop t1 t2 rest

/-- `StatisticsWidget.update_statistics` (statistics_widget.py lines 41-127).

With fewer than two cursor positions the widget shows the placeholder and
computes nothing (`none`).  Otherwise the two smallest positions bound the
range and the displayed blocks are `statsLoop` in dict order. -/
def update_statistics (cursor_positions : List ℚ)
    (signal_data_dict : List (String × Option SigData)) :
    Option (List (String × SignalStats)) :=
  if cursor_positions.length < 2 then none
  else
    match cursor_positions.insertionSort (· ≤ ·) with
    | t1 :: t2 :: _ => some (statsLoop t1 t2 signal_data_dict)
    | _ => none

end CanReaderVec

/-! ### Concrete fixtures used by the scenario claims -/

namespace CanReaderVec

/-- Series A of the spec scenarios: t = [0,1,2], v = [10,20,30]. -/
def seriesA : SigData := ⟨[0, 1, 2], [10, 20, 30], none, none, none⟩

/-- Series B of the spec scenarios: t = [0.5,1.5], v = [1,2]. -/
def seriesB : SigData := ⟨[1/2, 3/2], [1, 2], none, none, none⟩

/-- The two scenario series collected by the alignment pipeline, no range. -/
def arrsAB : List (String × AlignInput) :=
  signal_arrays none [("A", some seriesA), ("B", some seriesB)]

/-! ### Helper lemmas on the dict model -/

theorem dictLookup_map_overwrite_ne (k k2 : String) (v : α) (hne : k2 ≠ k) :
    ∀ d : List (String × α),
      dictLookup k2 (d.map (fun q => if q.1 = k then (k, v) else q)) = dictLookup k2 d
  | [] => rfl
  | p :: d => by
    by_cases hp : p.1 = k
    · rw [List.map_cons, if_pos hp, dictLookup, dictLookup,
        if_neg (fun h => hne h.symm), if_neg (by rw [hp]; exact fun h => hne h.symm)]
      exact dictLookup_map_overwrite_ne k k2 v hne d
    · rw [List.map_cons, if_neg hp, dictLookup, dictLookup]
      by_cases h2 : p.1 = k2
      · rw [if_pos h2, if_pos h2]
      · rw [if_neg h2, if_neg h2]
        exact dictLookup_map_overwrite_ne k k2 v hne d

theorem dictLookup_append_single_ne (k k2 : String) (v : α) (hne : k2 ≠ k) :
    ∀ d : List (String × α), dictLookup k2 (d ++ [(k, v)]) = dictLookup k2 d
  | [] => by
    simp only [List.nil_append, dictLookup]
    rw [if_neg (fun h => hne h.symm)]
  | p :: d => by
    rw [List.cons_append, dictLookup, dictLookup]
    by_cases h2 : p.1 = k2
    · rw [if_pos h2, if_pos h2]
    · rw [if_neg h2, if_neg h2]
      exact dictLookup_append_single_ne k k2 v hne d

/-- Reading back the key just written by a dict assignment yields the new
value. -/
theorem dictLookup_map_overwrite_self (k : String) (v : α) :
    ∀ d : List (String × α), d.any (fun q => q.1 = k) = true →
      dictLookup k (d.map (fun q => if q.1 = k then (k, v) else q)) = some v
  | [] => by simp
  | p :: d => by
    intro hany
    by_cases hp : p.1 = k
    · rw [List.map_cons, if_pos hp, dictLookup, if_pos rfl]
    · rw [List.map_cons, if_neg hp, dictLookup, if_neg hp]
      apply dictLookup_map_overwrite_self k v d
      simpa [hp] using hany

theorem dictLookup_append_single_self (k : String) (v : α) :
    ∀ d : List (String × α), d.any (fun q => q.1 = k) = false →
      dictLookup k (d ++ [(k, v)]) = some v
  | [] => by
    intro _
    simp [dictLookup]
  | p :: d => by
    intro hany
    have hp : ¬p.1 = k := by
      simp only [List.any_cons, Bool.or_eq_false_iff, decide_eq_false_iff_not] at hany
      exact hany.1
    rw [List.cons_append, dictLookup, if_neg hp]
    apply dictLookup_append_single_self k v d
    simp only [List.any_cons, Bool.or_eq_false_iff] at hany
    exact hany.2

/-- Reading back the key just written by a dict assignment yields the new
value. -/
theorem lookup_dictInsert (k : String) (v : α) (d : List (String × α)) :
    dictLookup k (dictInsert k v d) = some v := by
  unfold dictInsert
  by_cases hany : d.any (fun q => q.1 = k) = true
  · rw [if_pos hany]
    exact dictLookup_map_overwrite_self k v d hany
  · rw [if_neg hany]
    exact dictLookup_append_single_self k v d (Bool.eq_false_iff.mpr hany)

/-- Reading any other key after a dict assignment is unchanged. -/
theorem lookup_dictInsert_ne (k k2 : String) (v : α) (d : List (String × α))
    (hne : k2 ≠ k) : dictLookup k2 (dictInsert k v d) = dictLookup k2 d := by
  unfold dictInsert
  by_cases hany : d.any (fun q => q.1 = k) = true
  · rw [if_pos hany]
    exact dictLookup_map_overwrite_ne k k2 v hne d
  · rw [if_neg hany]
    exact dictLookup_append_single_ne k k2 v hne d

/-- Every entry of a dict after an assignment is either the assigned pair
or an entry of the original dict. -/
theorem mem_dictInsert (k : String) (v : α) (d : List (String × α))
    (p : String × α) (hp : p ∈ dictInsert k v d) : p = (k, v) ∨ p ∈ d := by
  unfold dictInsert at hp
  by_cases hany : d.any (fun q => q.1 = k) = true
  · simp only [hany, if_true, List.mem_map] at hp
    obtain ⟨q, hq, hqe⟩ := hp
    by_cases hqk : q.1 = k
    · left; rw [← hqe]; simp [hqk]
    · right; rw [← hqe]; simpa [hqk] using hq
  · simp only [hany, if_false] at hp
    rcases List.mem_append.mp hp with h | h
    · right; exact h
    · left; simpa using h

end CanReaderVec

namespace CanReaderVec

/-! ### Characterization of the decode loop -/

/-- The decode loop returns exactly the timestamps and values of the frames
passing the decode condition, in order. -/
theorem decodeLoop_eq (p : DBCParser) (frame_id : ℕ) (signal_name : String) :
    ∀ frames : List Frame,
      decodeLoop p frame_id signal_name frames =
        ((frames.filter (decodeOk p frame_id signal_name)).map Frame.timestamp,
         (frames.filter (decodeOk p frame_id signal_name)).map
           (decodedValue p frame_id signal_name))
  | [] => rfl
  | msg :: rest => by
    rw [decodeLoop, decodeLoop_eq p frame_id signal_name rest]
    by_cases h : decodeOk p frame_id signal_name msg
    · simp [List.filter_cons, h]
    · simp [List.filter_cons, h]

end CanReaderVec

namespace CanReaderVec

/-- C8: every successful `process_signal` result has index-aligned arrays of
equal length; its timestamps are non-decreasing whenever the store delivers
its frames in non-decreasing time order; and the samples are exactly the
(timestamp, decoded value) pairs of the frames that matched the resolved
message identifier and passed the decode step (frames failing to decode are
silently skipped), with at least one surviving sample. -/
theorem process_signal_series_invariants
    (dbc : DBCParser) (blf : BLFReader) (sp : SignalProcessor)
    (mn sn : String) (tv : List ℚ × List ℚ)
    (h : (process_signal dbc blf sp mn sn).ret = some tv) :
    tv.1.length = tv.2.length ∧
    ((blf.messages.map Frame.timestamp).Sorted (· ≤ ·) → tv.1.Sorted (· ≤ ·)) ∧
    ∃ m, get_message_by_name dbc mn = some m ∧
      tv.1 = ((get_messages_by_id blf m.frame_id).filter
        (decodeOk dbc m.frame_id sn)).map Frame.timestamp ∧
      tv.2 = ((get_messages_by_id blf m.frame_id).filter
        (decodeOk dbc m.frame_id sn)).map (decodedValue dbc m.frame_id sn) ∧
      tv.1 ≠ [] := by
  rcases hm : get_message_by_name dbc mn with _ | m
  · simp [process_signal, hm] at h
  · by_cases he : (get_messages_by_id blf m.frame_id).isEmpty = true
    · simp [process_signal, hm, he] at h
    · by_cases hv : (decodeLoop dbc m.frame_id sn (get_messages_by_id blf m.frame_id)).1.isEmpty = true
      · simp [process_signal, hm, he, hv] at h
      · have htv : tv = decodeLoop dbc m.frame_id sn (get_messages_by_id blf m.frame_id) := by
          simp [process_signal, hm, he, hv] at h
          exact h.symm
        rw [decodeLoop_eq] at htv
        refine ⟨?_, ?_, m, rfl, ?_, ?_, ?_⟩
        · rw [htv]
          simp
        · intro hsorted
          rw [htv]
          have hsub : List.Sublist
              (((get_messages_by_id blf m.frame_id).filter
                (decodeOk dbc m.frame_id sn)).map Frame.timestamp)
              (blf.messages.map Frame.timestamp) := by
            apply List.Sublist.map
            exact (List.filter_sublist _).trans (List.filter_sublist _)
          exact hsorted.sublist hsub
        · rw [htv]
        · rw [htv]
        · rw [htv]
          rw [decodeLoop_eq] at hv
          simpa using hv

/-- Fixture DBC for the C8 witness: one message `M`, id 1, whose decode
succeeds with signal `S` = 7 exactly on the payload `[0]`. -/
def dbcW : DBCParser :=
  ⟨[⟨"M", 1, fun d => if d = [0] then some [("S", 7)] else none⟩]⟩

/-- Fixture frame log for the C8 witness: a decodable id-1 frame, an id-2
frame (no match), and an id-1 frame with a payload the decode rejects. -/
def blfW : BLFReader :=
  ⟨[⟨0, 1, [0]⟩, ⟨1, 2, [0]⟩, ⟨2, 1, [9]⟩], "w.blf", 0, 2⟩

theorem process_signal_series_invariants_witness :
    (process_signal dbcW blfW ⟨[]⟩ "M" "S").ret = some ([0], [7]) ∧
    ([(0 : ℚ)].length = [(7 : ℚ)].length ∧
      ((blfW.messages.map Frame.timestamp).Sorted (· ≤ ·) →
        List.Sorted (· ≤ ·) [(0 : ℚ)])) := by
  have hret : (process_signal dbcW blfW ⟨[]⟩ "M" "S").ret = some ([0], [7]) := by
    norm_num [process_signal, get_message_by_name, get_messages_by_id, dbcW, blfW,
      decodeLoop, decodeOk, decodedValue, decode_message, get_message_by_id,
      List.find?, List.filter, List.lookup]
  have h := process_signal_series_invariants dbcW blfW ⟨[]⟩ "M" "S" ([0], [7]) hret
  exact ⟨hret, h.1, h.2.1⟩

end CanReaderVec

namespace CanReaderVec

/-- C1 counterexample: after a first successful `process_signal` call for
`(M, S)` has populated the cache, a second call with the same key still
passes every matching frame to the decode function (`decodeCalls ≠ 0`): the
method never consults `processed_signals`, so the claimed cache hit with no
decode work does not happen. -/
theorem process_signal_second_call_still_decodes :
    (process_signal dbcW blfW
      ⟨(process_signal dbcW blfW ⟨[]⟩ "M" "S").processed_signals⟩
      "M" "S").decodeCalls ≠ 0 := by
  norm_num [process_signal, get_message_by_name, get_messages_by_id, dbcW, blfW,
    decodeLoop, decodeOk, decodedValue, decode_message, get_message_by_id,
    List.find?, List.filter, List.lookup, dictInsert]

/-- C1 amended: `process_signal` is deterministic and ignores the cache
state, so a second call for the same key returns a result bit-identical to
the first and performs the same decode work again (one decode invocation
per matching frame) instead of returning the memoized object; on success
the recomputed series overwrites the cache entry, which `get_cached_signal`
then reports. -/
theorem process_signal_recompute_deterministic
    (dbc : DBCParser) (blf : BLFReader) (sp1 sp2 : SignalProcessor)
    (mn sn : String) :
    (process_signal dbc blf sp1 mn sn).ret = (process_signal dbc blf sp2 mn sn).ret ∧
    (process_signal dbc blf sp1 mn sn).decodeCalls =
      (process_signal dbc blf sp2 mn sn).decodeCalls ∧
    ∀ tv, (process_signal dbc blf sp1 mn sn).ret = some tv →
      get_cached_signal ⟨(process_signal dbc blf sp1 mn sn).processed_signals⟩ mn sn =
        some tv := by
  rcases hm : get_message_by_name dbc mn with _ | m
  · refine ⟨by simp [process_signal, hm], by simp [process_signal, hm], ?_⟩
    intro tv htv
    simp [process_signal, hm] at htv
  · by_cases he : (get_messages_by_id blf m.frame_id).isEmpty = true
    · refine ⟨by simp [process_signal, hm, he], by simp [process_signal, hm, he], ?_⟩
      intro tv htv
      simp [process_signal, hm, he] at htv
    · by_cases hv : (decodeLoop dbc m.frame_id sn (get_messages_by_id blf m.frame_id)).1.isEmpty = true
      · refine ⟨by simp [process_signal, hm, he, hv], by simp [process_signal, hm, he, hv], ?_⟩
        intro tv htv
        simp [process_signal, hm, he, hv] at htv
      · refine ⟨by simp [process_signal, hm, he, hv], by simp [process_signal, hm, he, hv], ?_⟩
        intro tv htv
        have htv2 : tv = decodeLoop dbc m.frame_id sn (get_messages_by_id blf m.frame_id) := by
          simp [process_signal, hm, he, hv] at htv
          exact htv.symm
        have hps : (process_signal dbc blf sp1 mn sn).processed_signals =
            dictInsert (mn ++ "." ++ sn)
              (decodeLoop dbc m.frame_id sn (get_messages_by_id blf m.frame_id))
              sp1.processed_signals := by
          simp [process_signal, hm, he, hv]
        rw [htv2]
        unfold get_cached_signal
        rw [hps]
        exact lookup_dictInsert _ _ _

theorem process_signal_recompute_deterministic_witness :
    (process_signal dbcW blfW ⟨[]⟩ "M" "S").ret = some ([0], [7]) ∧
    get_cached_signal ⟨(process_signal dbcW blfW ⟨[]⟩ "M" "S").processed_signals⟩ "M" "S" =
      some ([0], [7]) := by
  have hret : (process_signal dbcW blfW ⟨[]⟩ "M" "S").ret = some ([0], [7]) := by
    norm_num [process_signal, get_message_by_name, get_messages_by_id, dbcW, blfW,
      decodeLoop, decodeOk, decodedValue, decode_message, get_message_by_id,
      List.find?, List.filter, List.lookup]
  exact ⟨hret,
    (process_signal_recompute_deterministic dbcW blfW ⟨[]⟩ ⟨[]⟩ "M" "S").2.2 _ hret⟩

/-- A successful `process_signal` return never carries an empty timestamp
array: the method returns None instead when nothing decodes. -/
theorem process_signal_ret_fst_ne_nil
    (dbc : DBCParser) (blf : BLFReader) (sp : SignalProcessor)
    (mn sn : String) (tv : List ℚ × List ℚ)
    (htv : (process_signal dbc blf sp mn sn).ret = some tv) : tv.1 ≠ [] := by
  rcases hm : get_message_by_name dbc mn with _ | m
  · simp [process_signal, hm] at htv
  · by_cases he : (get_messages_by_id blf m.frame_id).isEmpty = true
    · simp [process_signal, hm, he] at htv
    · by_cases hv : (decodeLoop dbc m.frame_id sn (get_messages_by_id blf m.frame_id)).1.isEmpty = true
      · simp [process_signal, hm, he, hv] at htv
      · have htv2 : tv = decodeLoop dbc m.frame_id sn (get_messages_by_id blf m.frame_id) := by
          simp [process_signal, hm, he, hv] at htv
          exact htv.symm
        rw [htv2]
        simpa using hv

/-- Fixture for the no-matching-frames scenario: the catalog knows `Msg`
(id 5) but the (empty) log has no frame with id 5. -/
def dbcMsg : DBCParser := ⟨[⟨"Msg", 5, fun _ => some [("Sig", 0)]⟩]⟩

/-- An empty frame log. -/
def blfEmpty : BLFReader := ⟨[], "", 0, 0⟩

/-- Fixture for the definition-not-found scenario: an empty catalog. -/
def dbcNone : DBCParser := ⟨[]⟩

/-- Fixture for the signal-not-in-message scenario: `Msg` decodes, but only
to the signal `Other`. -/
def dbcOther : DBCParser := ⟨[⟨"Msg", 5, fun _ => some [("Other", 0)]⟩]⟩

/-- One id-5 frame, so `Msg` has matching frames for `dbcOther`. -/
def blfOne : BLFReader := ⟨[⟨0, 5, []⟩], "", 0, 0⟩

/-- C2 counterexample: the no-matching-frames failure returns exactly the
same value (`None`) as the definition-not-found failure and as the
signal-not-in-message failure — the returned failure value is not
distinguishable between the three error kinds. -/
theorem process_signal_failure_values_indistinguishable :
    (process_signal dbcMsg blfEmpty ⟨[]⟩ "Msg" "Sig").ret =
      (process_signal dbcNone blfEmpty ⟨[]⟩ "Msg" "Sig").ret ∧
    (process_signal dbcMsg blfEmpty ⟨[]⟩ "Msg" "Sig").ret =
      (process_signal dbcOther blfOne ⟨[]⟩ "Msg" "Sig").ret := by
  simp [process_signal, get_message_by_name, get_messages_by_id,
    dbcMsg, dbcNone, dbcOther, blfEmpty, blfOne,
    decodeLoop, decodeOk, decodedValue, decode_message, get_message_by_id,
    List.find?, List.filter, List.lookup]

/-- C2 amended: when the message resolves but no frame matches its id, the
call fails by returning `None` — never an empty series: every successful
return has a non-empty timestamp array — and the three failure kinds are
told apart only by their printed diagnostics, which are pairwise distinct,
not by the returned value. -/
theorem process_signal_no_matching_frames_diagnostic :
    (process_signal dbcMsg blfEmpty ⟨[]⟩ "Msg" "Sig").ret = none ∧
    (process_signal dbcMsg blfEmpty ⟨[]⟩ "Msg" "Sig").log =
      ["No messages with ID 5 found in BLF"] ∧
    (process_signal dbcNone blfEmpty ⟨[]⟩ "Msg" "Sig").log =
      ["Message Msg not found in DBC"] ∧
    (process_signal dbcOther blfOne ⟨[]⟩ "Msg" "Sig").log =
      ["No valid data for signal Sig in message Msg"] ∧
    (process_signal dbcMsg blfEmpty ⟨[]⟩ "Msg" "Sig").log ≠
      (process_signal dbcNone blfEmpty ⟨[]⟩ "Msg" "Sig").log ∧
    (process_signal dbcMsg blfEmpty ⟨[]⟩ "Msg" "Sig").log ≠
      (process_signal dbcOther blfOne ⟨[]⟩ "Msg" "Sig").log ∧
    (process_signal dbcNone blfEmpty ⟨[]⟩ "Msg" "Sig").log ≠
      (process_signal dbcOther blfOne ⟨[]⟩ "Msg" "Sig").log ∧
    ∀ (dbc : DBCParser) (blf : BLFReader) (sp : SignalProcessor) (mn sn : String)
      (tv : List ℚ × List ℚ),
      (process_signal dbc blf sp mn sn).ret = some tv → tv.1 ≠ [] := by
  refine ⟨?_, ?_, ?_, ?_, ?_, ?_, ?_, ?_⟩
  · simp [process_signal, get_message_by_name, get_messages_by_id,
      dbcMsg, blfEmpty, List.find?, List.filter]
  · simp only [process_signal, get_message_by_name, get_messages_by_id,
      dbcMsg, blfEmpty, List.find?, List.filter]
    decide
  · simp only [process_signal, get_message_by_name, dbcNone, List.find?]
    decide
  · simp only [process_signal, get_message_by_name, get_messages_by_id,
      dbcOther, blfOne, decodeLoop, decodeOk, decodedValue, decode_message,
      get_message_by_id, List.find?, List.filter, List.lookup]
    simp
    decide
  · simp only [process_signal, get_message_by_name, get_messages_by_id,
      dbcMsg, dbcNone, blfEmpty, List.find?, List.filter]
    decide
  · simp only [process_signal, get_message_by_name, get_messages_by_id,
      dbcMsg, dbcOther, blfEmpty, blfOne, decodeLoop, decodeOk, decodedValue,
      decode_message, get_message_by_id, List.find?, List.filter, List.lookup]
    simp
    decide
  · simp only [process_signal, get_message_by_name, get_messages_by_id,
      dbcNone, dbcOther, blfEmpty, blfOne, decodeLoop, decodeOk, decodedValue,
      decode_message, get_message_by_id, List.find?, List.filter, List.lookup]
    simp
    decide
  · intro dbc blf sp mn sn tv htv
    exact process_signal_ret_fst_ne_nil dbc blf sp mn sn tv htv

theorem process_signal_no_matching_frames_diagnostic_witness :
    (process_signal dbcW blfW ⟨[]⟩ "M" "S").ret = some ([0], [7]) ∧
    ([(0 : ℚ)] : List ℚ) ≠ [] := by
  have hret : (process_signal dbcW blfW ⟨[]⟩ "M" "S").ret = some ([0], [7]) := by
    norm_num [process_signal, get_message_by_name, get_messages_by_id, dbcW, blfW,
      decodeLoop, decodeOk, decodedValue, decode_message, get_message_by_id,
      List.find?, List.filter, List.lookup]
  exact ⟨hret,
    process_signal_no_matching_frames_diagnostic.2.2.2.2.2.2.2
      dbcW blfW ⟨[]⟩ "M" "S" ([0], [7]) hret⟩

end CanReaderVec

namespace CanReaderVec

/-- A frame store that already holds one loaded frame. -/
def stPrior : BLFReader := ⟨[⟨0, 1, []⟩], "a.blf", 5, 6⟩

/-- The single frame yielded before the failing load raises. -/
def fNew : Frame := ⟨7, 2, [1]⟩

/-- C3 counterexample: a failed load does not preserve the prior state —
`load_file` clears `messages` and overwrites `filepath` before reading, so
after the failure the store holds the partial un-normalized prefix yielded
before the error instead of its previous frame sequence. -/
theorem load_file_failure_keeps_partial_state :
    (load_file stPrior "b.blf" [fNew] true).2 = false ∧
    (load_file stPrior "b.blf" [fNew] true).1.messages = [fNew] ∧
    (load_file stPrior "b.blf" [fNew] true).1.messages ≠ stPrior.messages := by
  refine ⟨rfl, rfl, ?_⟩
  simp only [load_file, if_pos, stPrior, fNew]
  intro h
  have h2 := List.head_eq_of_cons_eq h
  have h3 := congrArg Frame.arbitration_id h2
  simp at h3

/-- C3 amended: on a failed load the method returns False but discards the
prior frame sequence — `messages` ends up holding exactly the un-normalized
prefix yielded before the error (empty when opening failed), `filepath` is
overwritten with the new path — while `start_time` and `end_time` keep
their prior values; on a successful non-empty load the full file's frames,
normalized to start at the first frame's timestamp, become the state. -/
theorem load_file_state_transition
    (st : BLFReader) (path : String) (yielded : List Frame) :
    (load_file st path yielded true).2 = false ∧
    (load_file st path yielded true).1.messages = yielded ∧
    (load_file st path yielded true).1.filepath = path ∧
    (load_file st path yielded true).1.start_time = st.start_time ∧
    (load_file st path yielded true).1.end_time = st.end_time ∧
    ∀ first rest, yielded = first :: rest →
      (load_file st path yielded false).2 = true ∧
      (load_file st path yielded false).1.messages =
        normalizeFrames first.timestamp (first :: rest) ∧
      (load_file st path yielded false).1.filepath = path ∧
      (load_file st path yielded false).1.start_time = first.timestamp := by
  refine ⟨rfl, rfl, rfl, rfl, rfl, ?_⟩
  rintro first rest rfl
  exact ⟨rfl, rfl, rfl, rfl⟩

theorem load_file_state_transition_witness :
    ([fNew] = fNew :: ([] : List Frame)) ∧
    (load_file stPrior "b.blf" [fNew] false).2 = true ∧
    (load_file stPrior "b.blf" [fNew] false).1.messages =
      normalizeFrames fNew.timestamp [fNew] ∧
    (load_file stPrior "b.blf" [fNew] true).1.start_time = stPrior.start_time :=
  ⟨rfl,
    ((load_file_state_transition stPrior "b.blf" [fNew]).2.2.2.2.2 fNew [] rfl).1,
    ((load_file_state_transition stPrior "b.blf" [fNew]).2.2.2.2.2 fNew [] rfl).2.1,
    (load_file_state_transition stPrior "b.blf" [fNew]).2.2.2.1⟩

end CanReaderVec

namespace CanReaderVec

/-- When every well-formed entry filters to an empty series, the export
loop adds no record. -/
theorem exportSignalsLoop_all_empty (t1 t2 : ℚ) :
    ∀ (dict : List (String × Option SigData)) (acc : List (String × SignalRecord)),
      (∀ k d, (k, some d) ∈ dict → (maskFilter t1 t2 d.time d.value).1 = []) →
      exportSignalsLoop t1 t2 dict acc = acc
  | [], acc, _ => rfl
  | (k, none) :: rest, acc, h => by
    rw [exportSignalsLoop]
    exact exportSignalsLoop_all_empty t1 t2 rest acc
      (fun k2 d2 hm => h k2 d2 (List.mem_cons_of_mem _ hm))
  | (k, some d) :: rest, acc, h => by
    rw [exportSignalsLoop]
    have hd : (maskFilter t1 t2 d.time d.value).1 = [] :=
      h k d (List.mem_cons_self _ _)
    rw [if_pos (by simp [hd])]
    exact exportSignalsLoop_all_empty t1 t2 rest acc
      (fun k2 d2 hm => h k2 d2 (List.mem_cons_of_mem _ hm))

/-- Fixture for the C4 counterexample: one series entirely outside the
requested range. -/
def dictC4 : List (String × Option SigData) := [("A", some ⟨[0], [1], none, none, none⟩)]

/-- C4 counterexample: with a non-empty series mapping whose every series
filters to zero samples in the range [10, 20], `export_time_range` does not
fail — it returns success and writes an artifact whose `signals` section is
empty.  There is no `NoDataInRange` failure in the code. -/
theorem export_time_range_empty_filter_succeeds_concrete :
    dictC4 ≠ [] ∧
    (export_time_range dictC4 (10, 20) none "d" true).success = true ∧
    ((export_time_range dictC4 (10, 20) none "d" true).written).map ExportData.signals =
      some [] := by
  refine ⟨by simp [dictC4], rfl, ?_⟩
  simp only [export_time_range, if_pos, Option.map_some']
  congr 1

/-- C4 amended: when every series in the (possibly non-empty) mapping has
zero samples after boundary-inclusive filtering, `export_time_range`
succeeds (provided the file write does) and produces an artifact with an
empty `signals` section; empty filtered series are skipped one by one and
no `NoDataInRange` error distinct from the empty-mapping case exists. -/
theorem export_time_range_all_empty_succeeds
    (dict : List (String × Option SigData)) (tr : ℚ × ℚ)
    (meta : Option (List (String × String))) (now : String)
    (h : ∀ k d, (k, some d) ∈ dict → (maskFilter tr.1 tr.2 d.time d.value).1 = []) :
    (export_time_range dict tr meta now true).success = true ∧
    ((export_time_range dict tr meta now true).written).map ExportData.signals =
      some [] := by
  refine ⟨rfl, ?_⟩
  simp only [export_time_range, if_pos, Option.map_some']
  congr 1
  exact exportSignalsLoop_all_empty tr.1 tr.2 dict [] h

theorem export_time_range_all_empty_succeeds_witness :
    (∀ k d, (k, some d) ∈ dictC4 →
      (maskFilter (10 : ℚ) 20 d.time d.value).1 = []) ∧
    (export_time_range dictC4 (10, 20) none "d" true).success = true := by
  have h : ∀ k d, (k, some d) ∈ dictC4 →
      (maskFilter (10 : ℚ) 20 d.time d.value).1 = [] := by
    intro k d hm
    simp only [dictC4, List.mem_singleton, Prod.mk.injEq, Option.some.injEq] at hm
    rw [hm.2]
    norm_num [maskFilter, List.filter_cons]
  exact ⟨h, (export_time_range_all_empty_succeeds dictC4 (10, 20) none "d" h).1⟩

end CanReaderVec

namespace CanReaderVec

/-- Re-importing a written document is the identity: the JSON round trip
reproduces the document and the list-to-array conversion leaves each
signal's time/value arrays unchanged. -/
theorem loadPartialData_written (e : ExportData) : loadPartialData (some e) = some e := by
  have h : (fun (pr : String × SignalRecord) =>
      (pr.1, ({ pr.2 with time := pr.2.time, value := pr.2.value } : SignalRecord))) =
      fun pr => pr := rfl
  show some (ExportData.mk e.metadata e.tr_start e.tr_end e.tr_duration
      (List.map (fun (pr : String × SignalRecord) =>
        (pr.1, ({ pr.2 with time := pr.2.time, value := pr.2.value } : SignalRecord)))
        e.signals)) = some e
  rw [h, List.map_id']

/-- Every record produced by the export loop that is not inherited from the
accumulator comes from some well-formed dict entry and carries exactly that
entry's boundary-inclusive filtered arrays and their length. -/
theorem mem_exportSignalsLoop (t1 t2 : ℚ) :
    ∀ (dict : List (String × Option SigData)) (acc : List (String × SignalRecord))
      (pr : String × SignalRecord), pr ∈ exportSignalsLoop t1 t2 dict acc →
      pr ∈ acc ∨ ∃ k0 d, (k0, some d) ∈ dict ∧
        pr.2 = ⟨d.message.getD "", d.signal.getD k0, d.unit.getD "",
          (maskFilter t1 t2 d.time d.value).1, (maskFilter t1 t2 d.time d.value).2,
          (maskFilter t1 t2 d.time d.value).1.length⟩ ∧
        (maskFilter t1 t2 d.time d.value).1 ≠ []
  | [], acc, pr, h => Or.inl h
  | (k, none) :: rest, acc, pr, h => by
    rcases mem_exportSignalsLoop t1 t2 rest acc pr h with h2 | ⟨k0, d, hm, he, hne⟩
    · exact Or.inl h2
    · exact Or.inr ⟨k0, d, List.mem_cons_of_mem _ hm, he, hne⟩
  | (k, some d) :: rest, acc, pr, h => by
    rw [exportSignalsLoop] at h
    by_cases hemp : (maskFilter t1 t2 d.time d.value).1.isEmpty = true
    · rw [if_pos hemp] at h
      rcases mem_exportSignalsLoop t1 t2 rest acc pr h with h2 | ⟨k0, d2, hm, he, hne⟩
      · exact Or.inl h2
      · exact Or.inr ⟨k0, d2, List.mem_cons_of_mem _ hm, he, hne⟩
    · rw [if_neg hemp] at h
      rcases mem_exportSignalsLoop t1 t2 rest _ pr h with h2 | ⟨k0, d2, hm, he, hne⟩
      · rcases mem_dictInsert _ _ _ _ h2 with h3 | h3
        · refine Or.inr ⟨k, d, List.mem_cons_self _ _, ?_, ?_⟩
          · rw [h3]
          · simpa using hemp
        · exact Or.inl h3
      · exact Or.inr ⟨k0, d2, List.mem_cons_of_mem _ hm, he, hne⟩

/-- C9: exporting a time range and re-importing the written document
reconstructs, for every exported signal key, the time and value arrays of
the boundary-inclusive filtering of the originating series to the range —
exactly, hence within any floating-point tolerance — together with the
matching sample count. -/
theorem export_time_range_roundtrip
    (dict : List (String × Option SigData)) (tr : ℚ × ℚ)
    (meta : Option (List (String × String))) (now : String) (loaded : ExportData)
    (hl : loadPartialData (export_time_range dict tr meta now true).written = some loaded) :
    ∀ pr ∈ loaded.signals, ∃ k0 d, (k0, some d) ∈ dict ∧
      pr.2.time = (maskFilter tr.1 tr.2 d.time d.value).1 ∧
      pr.2.value = (maskFilter tr.1 tr.2 d.time d.value).2 ∧
      pr.2.sample_count = pr.2.time.length ∧
      pr.2.time ≠ [] := by
  intro pr hpr
  have hw : (export_time_range dict tr meta now true).written =
      some ⟨updateMetadata (meta.getD []) now, tr.1, tr.2, tr.2 - tr.1,
        exportSignalsLoop tr.1 tr.2 dict []⟩ := rfl
  rw [hw, loadPartialData_written] at hl
  have hload : loaded.signals = exportSignalsLoop tr.1 tr.2 dict [] := by
    rw [← Option.some_inj.mp hl]
  rw [hload] at hpr
  rcases mem_exportSignalsLoop tr.1 tr.2 dict [] pr hpr with h | ⟨k0, d, hm, he, hne⟩
  · simp at h
  · refine ⟨k0, d, hm, ?_, ?_, ?_, ?_⟩
    · rw [he]
    · rw [he]
    · rw [he]
    · rw [he]
      exact hne

theorem export_time_range_roundtrip_witness :
    (loadPartialData (export_time_range [("A", some seriesA)] (0, 1) none "d" true).written =
      some ⟨updateMetadata [] "d", 0, 1, 1,
        [("A", ⟨"", "A", "", [0, 1], [10, 20], 2⟩)]⟩) ∧
    (∃ k0 d, (k0, some d) ∈ [("A", some seriesA)] ∧
      (⟨"", "A", "", [0, 1], [10, 20], 2⟩ : SignalRecord).time =
        (maskFilter (0 : ℚ) 1 d.time d.value).1 ∧
      (⟨"", "A", "", [0, 1], [10, 20], 2⟩ : SignalRecord).value =
        (maskFilter (0 : ℚ) 1 d.time d.value).2 ∧
      (⟨"", "A", "", [0, 1], [10, 20], 2⟩ : SignalRecord).sample_count =
        (⟨"", "A", "", [0, 1], [10, 20], 2⟩ : SignalRecord).time.length ∧
      (⟨"", "A", "", [0, 1], [10, 20], 2⟩ : SignalRecord).time ≠ []) := by
  have hl : loadPartialData (export_time_range [("A", some seriesA)] (0, 1) none "d" true).written =
      some ⟨updateMetadata [] "d", 0, 1, 1,
        [("A", ⟨"", "A", "", [0, 1], [10, 20], 2⟩)]⟩ := by
    rw [show (export_time_range [("A", some seriesA)] (0, 1) none "d" true).written =
        some ⟨updateMetadata [] "d", 0, 1, 1 - 0,
          exportSignalsLoop 0 1 [("A", some seriesA)] []⟩ from rfl]
    rw [loadPartialData_written]
    norm_num [exportSignalsLoop, maskFilter, seriesA, List.filter_cons, fullKey, dictInsert]
  refine ⟨hl, ?_⟩
  exact export_time_range_roundtrip [("A", some seriesA)] (0, 1) none "d" _ hl
    ("A", ⟨"", "A", "", [0, 1], [10, 20], 2⟩) (by simp)

end CanReaderVec

namespace CanReaderVec

/-- C10: `export_time_range` updates the caller-supplied metadata dict in
place — after any call (even one whose file write fails) the caller's dict
carries the keys `export_date`, `app_name` and `app_version` with the
tool's values, overwriting whatever the caller had stored under those keys,
while every other key keeps its previous value; the argument is therefore
not left unchanged whenever those bindings differ. -/
theorem export_time_range_mutates_metadata
    (dict : List (String × Option SigData)) (tr : ℚ × ℚ)
    (m : List (String × String)) (now : String) (writeOk : Bool) :
    (export_time_range dict tr (some m) now writeOk).metadata_arg =
      updateMetadata m now ∧
    dictLookup "export_date" (updateMetadata m now) = some now ∧
    dictLookup "app_name" (updateMetadata m now) = some "CAN Data Viewer" ∧
    dictLookup "app_version" (updateMetadata m now) = some "1.1.0" ∧
    ∀ k2, k2 ≠ "export_date" → k2 ≠ "app_name" → k2 ≠ "app_version" →
      dictLookup k2 (updateMetadata m now) = dictLookup k2 m := by
  refine ⟨?_, ?_, ?_, ?_, ?_⟩
  · rcases writeOk with _ | _
    · rfl
    · rfl
  · unfold updateMetadata
    rw [lookup_dictInsert_ne _ _ _ _ (by decide),
      lookup_dictInsert_ne _ _ _ _ (by decide), lookup_dictInsert]
  · unfold updateMetadata
    rw [lookup_dictInsert_ne _ _ _ _ (by decide), lookup_dictInsert]
  · unfold updateMetadata
    rw [lookup_dictInsert]
  · intro k2 h1 h2 h3
    unfold updateMetadata
    rw [lookup_dictInsert_ne _ _ _ _ h3, lookup_dictInsert_ne _ _ _ _ h2,
      lookup_dictInsert_ne _ _ _ _ h1]

theorem export_time_range_mutates_metadata_witness :
    (export_time_range [] (0, 0) (some [("app_name", "X"), ("src", "y")]) "now" false).metadata_arg =
      updateMetadata [("app_name", "X"), ("src", "y")] "now" ∧
    dictLookup "app_name" (updateMetadata [("app_name", "X"), ("src", "y")] "now") =
      some "CAN Data Viewer" ∧
    dictLookup "app_name" (updateMetadata [("app_name", "X"), ("src", "y")] "now") ≠
      dictLookup "app_name" [("app_name", "X"), ("src", "y")] ∧
    dictLookup "src" (updateMetadata [("app_name", "X"), ("src", "y")] "now") =
      dictLookup "src" [("app_name", "X"), ("src", "y")] := by
  have h := export_time_range_mutates_metadata [] (0, 0)
    [("app_name", "X"), ("src", "y")] "now" false
  refine ⟨h.1, h.2.2.1, ?_, h.2.2.2.2 "src" (by decide) (by decide) (by decide)⟩
  rw [h.2.2.1]
  simp [dictLookup]

end CanReaderVec

namespace CanReaderVec

/-- The unified time base is strictly ascending. -/
theorem unified_time_sorted_lt (arrs : List (String × AlignInput)) :
    (unified_time arrs).Sorted (· < ·) :=
  (List.sorted_insertionSort _ _).lt_of_le
    (((List.perm_insertionSort _ _).nodup_iff).mpr (List.nodup_dedup _))

/-- Membership in the unified time base is membership in some contributing
series' (filtered) timestamps. -/
theorem mem_unified_time (arrs : List (String × AlignInput)) (a : ℚ) :
    a ∈ unified_time arrs ↔ ∃ e ∈ arrs, a ∈ (Prod.snd e).time := by
  unfold unified_time allTimes
  rw [List.mem_insertionSort, List.mem_dedup, List.mem_flatten]
  constructor
  · rintro ⟨l, hl, hal⟩
    obtain ⟨e, he, rfl⟩ := List.mem_map.mp hl
    exact ⟨e, he, hal⟩
  · rintro ⟨e, he, hae⟩
    exact ⟨e.2.time, List.mem_map.mpr ⟨e, he, rfl⟩, hae⟩

/-- C5: for a non-empty collection of surviving (filtered) input series,
the unified time base is strictly ascending (hence duplicate-free), its
members are exactly the timestamps of the contributing filtered series,
and it is the unique strictly-ascending sequence with that member set —
i.e. it equals, as a sequence, the sorted de-duplicated union of all
contributing series' timestamps. -/
theorem align_unified_time_sorted_union
    (dict : List (String × Option SigData)) (tr : Option (ℚ × ℚ))
    (_hne : signal_arrays tr dict ≠ []) :
    (unified_time (signal_arrays tr dict)).Sorted (· < ·) ∧
    (∀ a, a ∈ unified_time (signal_arrays tr dict) ↔
      ∃ e ∈ signal_arrays tr dict, a ∈ (Prod.snd e).time) ∧
    ∀ l : List ℚ, l.Sorted (· < ·) →
      (∀ a, a ∈ l ↔ a ∈ unified_time (signal_arrays tr dict)) →
      l = unified_time (signal_arrays tr dict) := by
  refine ⟨unified_time_sorted_lt _, fun a => mem_unified_time _ a, ?_⟩
  intro l hs hmem
  have hnl : l.Nodup := hs.nodup
  have hnu : (unified_time (signal_arrays tr dict)).Nodup :=
    (unified_time_sorted_lt _).nodup
  have hperm : List.Perm l (unified_time (signal_arrays tr dict)) :=
    List.perm_of_nodup_nodup_toFinset_eq hnl hnu
      (Finset.ext (fun a => by simp only [List.mem_toFinset]; exact hmem a))
  exact List.eq_of_perm_of_sorted hperm hs (unified_time_sorted_lt _)

theorem align_unified_time_sorted_union_witness :
    signal_arrays none [("A", some seriesA), ("B", some seriesB)] ≠ [] ∧
    (unified_time (signal_arrays none [("A", some seriesA), ("B", some seriesB)])).Sorted
      (· < ·) := by
  have hne : signal_arrays none [("A", some seriesA), ("B", some seriesB)] ≠ [] := by
    norm_num [signal_arrays, seriesA, seriesB]
    simp
  exact ⟨hne, (align_unified_time_sorted_union
    [("A", some seriesA), ("B", some seriesB)] none hne).1⟩

/-- Inside the walk of `np.interp`, an exact knot of the remaining list is
reproduced exactly, provided the knot abscissae are strictly increasing. -/
theorem interpFrom_knot :
    ∀ (t0 v0 : ℚ) (rest : List (ℚ × ℚ)) (q : ℚ × ℚ),
      (t0 :: rest.map Prod.fst).Sorted (· < ·) → q ∈ rest →
      interpFrom t0 v0 rest q.1 = q.2
  | t0, v0, [], q, _, hq => absurd hq (List.not_mem_nil q)
  | t0, v0, (t1, v1) :: rest2, q, hs, hq => by
    rcases hq with _ | hq2
    · have hlt : t0 < t1 := (List.sorted_cons.mp hs).1 t1 (by simp)
      have hne : t1 - t0 ≠ 0 := sub_ne_zero.mpr (ne_of_gt hlt)
      rw [interpFrom, if_pos le_rfl, mul_div_assoc, div_self hne, mul_one]
      ring
    · rename_i hq2
      have hst : (t1 :: rest2.map Prod.fst).Sorted (· < ·) :=
        (List.sorted_cons.mp hs).2
      have ht1q : t1 < q.1 :=
        (List.sorted_cons.mp hst).1 q.1 (List.mem_map.mpr ⟨q, hq2, rfl⟩)
      rw [interpFrom, if_neg (not_le.mpr ht1q)]
      exact interpFrom_knot t1 v1 rest2 q hst hq2

/-- C6: aligning the scenario series A = (t [0,1,2], v [10,20,30]) and
B = (t [0.5,1.5], v [1,2]) with no range gives the unified base
[0, 0.5, 1, 1.5, 2], column A = [10,15,20,25,30] by linear interpolation
and column B = [1,1,1.5,2,2], clamped to the boundary values outside B's
own span; and in general interpolation at an exact original sample
timestamp of a strictly increasing series returns exactly that sample's
value. -/
theorem align_scenario_interpolation :
    unified_time arrsAB = [0, 1/2, 1, 3/2, 2] ∧
    interpolated_data arrsAB =
      [("A", [10, 15, 20, 25, 30]), ("B", [1, 1, 3/2, 2, 2])] ∧
    ∀ (pts : List (ℚ × ℚ)), (pts.map Prod.fst).Sorted (· < ·) →
      ∀ q ∈ pts, interp pts q.1 = q.2 := by
  refine ⟨?_, ?_, ?_⟩
  · norm_num [unified_time, allTimes, arrsAB, signal_arrays, seriesA, seriesB,
      List.dedup, List.insertionSort, List.orderedInsert]
  · norm_num [interpolated_data, unified_time, allTimes, arrsAB, signal_arrays,
      seriesA, seriesB, List.dedup, List.insertionSort, List.orderedInsert,
      interp, interpFrom]
  · intro pts hs q hq
    match pts, hq with
    | (t0, v0) :: rest, hq =>
      rcases hq with _ | hq2
      · rw [interp, if_pos le_rfl]
      · rename_i hq2
        have ht0 : t0 < q.1 :=
          (List.sorted_cons.mp hs).1 q.1 (List.mem_map.mpr ⟨q, hq2, rfl⟩)
        rw [interp, if_neg (not_le.mpr ht0)]
        exact interpFrom_knot t0 v0 rest q hs hq2

theorem align_scenario_interpolation_witness :
    (([((1 : ℚ)/2, (1 : ℚ)), (3/2, 2)].map Prod.fst).Sorted (· < ·)) ∧
    interp [((1 : ℚ)/2, (1 : ℚ)), (3/2, 2)] (3/2) = 2 := by
  have hs : (([((1 : ℚ)/2, (1 : ℚ)), (3/2, 2)].map Prod.fst).Sorted (· < ·)) := by
    norm_num [List.sorted_cons]
  exact ⟨hs, align_scenario_interpolation.2.2 [((1 : ℚ)/2, (1 : ℚ)), (3/2, 2)] hs
    (3/2, 2) (by simp)⟩

end CanReaderVec

namespace CanReaderVec

/-- The in-range selection used by the statistics loop: the values of the
raw decoded samples whose timestamp lies in the closed cursor range. -/
def valuesInRange (t1 t2 : ℚ) (d : SigData) : List ℚ :=
  ((d.time.zip d.value).filter (fun p => decide (t1 ≤ p.1 ∧ p.1 ≤ t2))).map Prod.snd

/-- Every statistics block reported by the loop comes from a dict entry
with a non-empty in-range selection, and is exactly the population
statistics of that selection. -/
theorem mem_statsLoop (t1 t2 : ℚ) :
    ∀ (dict : List (String × Option SigData)) (pr : String × SignalStats),
      pr ∈ statsLoop t1 t2 dict →
      ∃ k0 d, (k0, some d) ∈ dict ∧ valuesInRange t1 t2 d ≠ [] ∧
        pr = (fullKey (d.message.getD "") (d.signal.getD k0),
          statsOf (valuesInRange t1 t2 d))
  | [], pr, h => absurd h (List.not_mem_nil pr)
  | (k, none) :: rest, pr, h => by
    rw [statsLoop] at h
    obtain ⟨k0, d, hm, hv, he⟩ := mem_statsLoop t1 t2 rest pr h
    exact ⟨k0, d, List.mem_cons_of_mem _ hm, hv, he⟩
  | (k, some d) :: rest, pr, h => by
    rw [statsLoop] at h
    by_cases hemp : (((d.time.zip d.value).filter
        (fun p => decide (t1 ≤ p.1 ∧ p.1 ≤ t2))).map Prod.snd).isEmpty = true
    · rw [if_pos hemp] at h
      obtain ⟨k0, d2, hm, hv, he⟩ := mem_statsLoop t1 t2 rest pr h
      exact ⟨k0, d2, List.mem_cons_of_mem _ hm, hv, he⟩
    · rw [if_neg hemp] at h
      rcases h with _ | h2
      · refine ⟨k, d, List.mem_cons_self _ _, ?_, rfl⟩
        simpa [valuesInRange] using hemp
      · rename_i h2
        obtain ⟨k0, d2, hm, hv, he⟩ := mem_statsLoop t1 t2 rest pr h2
        exact ⟨k0, d2, List.mem_cons_of_mem _ hm, hv, he⟩

/-- The loop reports exactly one block per dict entry whose in-range
selection is non-empty, so a series with zero samples in range is omitted
rather than reported as zero. -/
theorem statsLoop_length (t1 t2 : ℚ) :
    ∀ dict : List (String × Option SigData),
      (statsLoop t1 t2 dict).length =
        dict.countP (fun e => match e.2 with
          | none => false
          | some d => !(valuesInRange t1 t2 d).isEmpty)
  | [] => rfl
  | (k, none) :: rest => by
    rw [statsLoop, List.countP_cons]
    rw [statsLoop_length t1 t2 rest]
    simp
  | (k, some d) :: rest => by
    rw [statsLoop, List.countP_cons]
    by_cases hemp : (((d.time.zip d.value).filter
        (fun p => decide (t1 ≤ p.1 ∧ p.1 ≤ t2))).map Prod.snd).isEmpty = true
    · rw [if_pos hemp, statsLoop_length t1 t2 rest]
      have : (valuesInRange t1 t2 d).isEmpty = true := by
        simpa [valuesInRange] using hemp
      simp [this]
    · rw [if_neg hemp, List.length_cons, statsLoop_length t1 t2 rest]
      have : (valuesInRange t1 t2 d).isEmpty = false := by
        simpa [valuesInRange] using hemp
      simp [this]

/-- C7: with cursors at 0.5 and 1.5 on series A = (t [0,1,2], v [10,20,30])
only the raw sample at t = 1 is selected, giving mean 20, max 20, min 20,
standard deviation 0 (represented by its square) and sample count 1; the
variance divisor is the sample count (population formula: values [0, 2]
give variance 1, not the Bessel-corrected 2); every reported block is the
population statistics of the raw boundary-inclusive in-range samples of
its originating series; and series with zero samples in range are omitted
from the result. -/
theorem update_statistics_population_range :
    update_statistics [1/2, 3/2] [("A", some seriesA)] =
      some [("A", ⟨20, 20, 20, 0, 1⟩)] ∧
    update_statistics [0, 10] [("X", some ⟨[0, 1], [0, 2], none, none, none⟩)] =
      some [("X", ⟨1, 2, 0, 1, 2⟩)] ∧
    (∀ (t1 t2 : ℚ) (dict : List (String × Option SigData))
      (pr : String × SignalStats), pr ∈ statsLoop t1 t2 dict →
      ∃ k0 d, (k0, some d) ∈ dict ∧ valuesInRange t1 t2 d ≠ [] ∧
        pr = (fullKey (d.message.getD "") (d.signal.getD k0),
          statsOf (valuesInRange t1 t2 d))) ∧
    ∀ (t1 t2 : ℚ) (dict : List (String × Option SigData)),
      (statsLoop t1 t2 dict).length =
        dict.countP (fun e => match e.2 with
          | none => false
          | some d => !(valuesInRange t1 t2 d).isEmpty) := by
  refine ⟨?_, ?_, fun t1 t2 dict pr => mem_statsLoop t1 t2 dict pr,
    fun t1 t2 dict => statsLoop_length t1 t2 dict⟩
  · norm_num [update_statistics, List.insertionSort, List.orderedInsert, statsLoop,
      seriesA, statsOf, listMean, listMax, listMin, popVar, fullKey]
  · norm_num [update_statistics, List.insertionSort, List.orderedInsert, statsLoop,
      statsOf, listMean, listMax, listMin, popVar, fullKey]

theorem update_statistics_population_range_witness :
    (("A", statsOf (valuesInRange (1/2) (3/2) seriesA)) ∈
      statsLoop (1/2) (3/2) [("A", some seriesA)]) ∧
    ∃ k0 d, (k0, some d) ∈ [("A", some seriesA)] ∧
      valuesInRange ((1 : ℚ)/2) (3/2) d ≠ [] ∧
      ("A", statsOf (valuesInRange (1/2) (3/2) seriesA)) =
        (fullKey (d.message.getD "") (d.signal.getD k0),
          statsOf (valuesInRange (1/2) (3/2) d)) := by
  have hmem : ("A", statsOf (valuesInRange (1/2) (3/2) seriesA)) ∈
      statsLoop (1/2) (3/2) [("A", some seriesA)] := by
    norm_num [statsLoop, valuesInRange, seriesA, fullKey, List.filter_cons]
  exact ⟨hmem, update_statistics_population_range.2.2.1 (1/2) (3/2)
    [("A", some seriesA)] _ hmem⟩

end CanReaderVec
